import Mathlib

/-!
# Verification of the bug-shine simulation engine

Shallow embedding of `src/world.rs` (the `World` struct and its methods
`new`, `update`, `draw`, `click`) together with proofs about the engine.

The crate's `constants.rs` module is not part of the sources; following the
spec (§6), the compile-time constants `WIDTH`, `HEIGHT`, `SPECIES`,
`MAX_AGE` and the color palette `COLORS` are modelled as an explicit
configuration record.  The probabilistic constants `SKIP_CHANCE`,
`DEACTIVE_CHANCE` and `PULSE_CHANCE` only ever appear in comparisons
`rng.gen_range(0.0..1.0) < CHANCE`; each such comparison is modelled as a
boolean drawn from an explicit oracle, so no floating point arithmetic is
needed.  Randomness (the thread rng and the `noise` crate) is likewise
modelled by oracles: any outcome the real generator can produce is some
oracle value.
-/

namespace BugShine

/-- `Tile` from `world.rs`: `Empty`, `Wall`, or `Bug(species_id, age)`.
The Rust `u8` fields are modelled as `Nat` (their values never exceed 255
in reachable states; no arithmetic in the source wraps them). -/
inductive Tile where
  | Empty : Tile
  | Wall : Tile
  | Bug : Nat → Nat → Tile
deriving DecidableEq, Repr

/-- The fixed `HEIGHT × WIDTH` array `tiles: [[Tile; WIDTH]; HEIGHT]`,
modelled as a total function; `g y x` is `tiles[y][x]`.  Points outside
the `HEIGHT × WIDTH` rectangle do not exist in the Rust array; every
access the source performs is in bounds (or is modelled as a panic). -/
def Grid : Type := Nat → Nat → Tile

/-- Write `tiles[y][x] = t`. -/
def setTile (g : Grid) (y x : Nat) (t : Tile) : Grid :=
  fun b a => if b = y ∧ a = x then t else g b a

/-- An RGBA color, one byte per channel. -/
structure Rgba where
  r : Nat
  g : Nat
  b : Nat
  a : Nat
deriving DecidableEq, Repr

/-- The engine configuration: the compile-time constants of `constants.rs`.
Modelled from the spec: `constants.rs` is not among the sources; §6 of the
spec says the configuration "carries grid dimensions, species count, max
age, spread probabilities, and a color palette (one color per species)".
The probability constants are absorbed into the oracles below. -/
structure Config where
  WIDTH : Nat
  HEIGHT : Nat
  SPECIES : Nat
  MAX_AGE : Nat
  COLORS : List Rgba

/-- The `World` struct of `world.rs` (minus the rng, which is externalized
into the oracles). -/
structure World where
  tiles : Grid
  active : List (Nat × Nat)
  winner : Option Nat
  roots : List (Nat × Nat)
  frameCount : Nat

/-! ## The spread step of `World::update` (lines 87–132) -/

/-- The Rust range `-1..2` iterated by the `dx`/`dy` loops. -/
def rustRange : List Int := [-1, 0, 1]

/-- The `(dx, dy)` pairs the double loop in `update` actually processes:
all of `(-1..2) × (-1..2)` minus those skipped by
`if dx != 0 && dy != 0 { continue; }`.  (Note that this filter removes
only the four diagonal offsets; `(0, 0)` — the cell itself — remains.) -/
def neighborOffsets : List (Int × Int) :=
  (rustRange.flatMap (fun dx => rustRange.map (fun dy => (dx, dy)))).filter
    (fun d => !(d.1 != 0 && d.2 != 0))

/-- The bounds check `if nx < 0 || ny < 0 || nx >= WIDTH || ny >= HEIGHT`
of `update`; returns the target coordinate `(nx, ny)` as naturals when in
bounds, `none` when the offset is skipped. -/
def inBoundsTarget (cfg : Config) (x y : Nat) (d : Int × Int) : Option (Nat × Nat) :=
  let nx : Int := (x : Int) + d.1
  let ny : Int := (y : Int) + d.2
  if nx < 0 ∨ ny < 0 ∨ nx ≥ (cfg.WIDTH : Int) ∨ ny ≥ (cfg.HEIGHT : Int) then none
  else some (nx.toNat, ny.toNat)

/-- The in-bounds coordinates the double loop targets when processing the
frontier cell `(x, y)`. -/
def spreadTargets (cfg : Config) (x y : Nat) : List (Nat × Nat) :=
  neighborOffsets.filterMap (inBoundsTarget cfg x y)

/-- Whether a tile is overwritten by a spread attempt: the `Tile::Empty`
arm and the `Tile::Bug(_, other_age) if other_age == 0` arm of the match
at lines 117–128. -/
def spreadable : Tile → Bool
  | Tile.Empty => true
  | Tile.Bug _ age => age == 0
  | Tile.Wall => false

/-- State threaded through the frontier loop of `update`: the grid, the
`next_active` accumulator, and the per-species `counts` array (modelled as
a function; Rust's `counts: [usize; SPECIES]` is only read at indices
`< SPECIES`).  The `actives` array of the source is incremented in the age
pass but never read anywhere, so it is omitted. -/
structure SpreadState where
  tiles : Grid
  next : List (Nat × Nat)
  counts : Nat → Nat

/-- One spread attempt from `(x, y)` with offset `d`, by the bug species
`id`: the body of the inner `dy` loop of `update` (lines 105–128). -/
def trySpread (cfg : Config) (id x y : Nat) (d : Int × Int) (st : SpreadState) : SpreadState :=
  match inBoundsTarget cfg x y d with
  | none => st
  | some (nx, ny) =>
    match st.tiles ny nx with
    | Tile.Empty =>
        { st with tiles := setTile st.tiles ny nx (Tile.Bug id cfg.MAX_AGE)
                  next := st.next ++ [(nx, ny)] }
    | Tile.Bug _ other_age =>
        if other_age = 0 then
          { st with tiles := setTile st.tiles ny nx (Tile.Bug id cfg.MAX_AGE)
                    next := st.next ++ [(nx, ny)] }
        else st
    | Tile.Wall => st

/-- Processing of one frontier coordinate (lines 88–132): the skip roll,
the deactivation roll, and — if the cell still holds a bug — the count
bump and the double spread loop. -/
def processCell (cfg : Config) (skip deact : Bool) (p : Nat × Nat) (st : SpreadState) :
    SpreadState :=
  if skip then { st with next := st.next ++ [p] }
  else if deact then st
  else
    match st.tiles p.2 p.1 with
    | Tile.Bug id _ =>
        let st1 : SpreadState :=
          { st with counts := fun j => if j = id then st.counts j + 1 else st.counts j }
        neighborOffsets.foldl (fun s d => trySpread cfg id p.1 p.2 d s) st1
    | _ => st

/-- The random decisions one `update` call consumes.  `shuffle` models the
in-place `self.active.shuffle(&mut self.random)`; `skipRoll i` and
`deactRoll i` model the comparisons against `SKIP_CHANCE` and
`DEACTIVE_CHANCE` for the `i`-th frontier entry; `pulseRoll id` models the
comparison against `PULSE_CHANCE` for species `id`; `pulseSample id o i`
models the uniform samples of the pulse search (outer attempt `o`, inner
attempt `i`), reduced into range like the source's
`(WIDTH as f32 * random::<f32>()) as usize`. -/
structure TickOracle where
  shuffle : List (Nat × Nat) → List (Nat × Nat)
  skipRoll : Nat → Bool
  deactRoll : Nat → Bool
  pulseRoll : Nat → Bool
  pulseSample : Nat → Nat → Nat → Nat × Nat

/-- The whole frontier loop of `update` (lines 82–132), starting from an
empty `next_active` and zeroed `counts`. -/
def spreadPhase (cfg : Config) (o : TickOracle) (frontier : List (Nat × Nat)) (g : Grid) :
    SpreadState :=
  (frontier.enum).foldl
    (fun st kp => processCell cfg (o.skipRoll kp.1) (o.deactRoll kp.1) kp.2 st)
    ⟨g, [], fun _ => 0⟩

/-! ## The age pass of `World::update` (lines 134–146) -/

/-- The per-cell rule of the age pass: an age-0 bug is rewritten
unchanged, any other bug's age is decremented, non-bug tiles are left
alone. -/
def ageTile : Tile → Tile
  | Tile.Bug id age => if age = 0 then Tile.Bug id 0 else Tile.Bug id (age - 1)
  | t => t

/-- The age pass: the double loop `for y in 0..HEIGHT { for x in 0..WIDTH }`
applies `ageTile` to every cell of the `HEIGHT × WIDTH` array
independently (each iteration reads and writes only `tiles[y][x]`). -/
def agePass (cfg : Config) (g : Grid) : Grid :=
  fun y x => if y < cfg.HEIGHT ∧ x < cfg.WIDTH then ageTile (g y x) else g y x

/-! ## The pulse-reactivation step of `World::update` (lines 148–178) -/

/-- State threaded through the pulse step. -/
structure PulseState where
  tiles : Grid
  roots : List (Nat × Nat)
  next : List (Nat × Nat)

/-- The uniformly sampled coordinate of one inner pulse attempt, reduced
into range like the source's `(WIDTH as f32 * random::<f32>()) as usize`
(which always lands in `[0, WIDTH)`). -/
def pulsePoint (cfg : Config) (o : TickOracle) (id outer fuel : Nat) : Nat × Nat :=
  ((o.pulseSample id outer fuel).1 % cfg.WIDTH, (o.pulseSample id outer fuel).2 % cfg.HEIGHT)

/-- The recorded root of species `id`: `self.roots[id]` (always in range,
`roots` has length `SPECIES`). -/
def rootOf (st : PulseState) (id : Nat) : Nat × Nat :=
  st.roots.getD id (0, 0)

/-- The inner `for _ in 0..100` search of the pulse step (lines 163–175):
sample a uniformly random cell; if it belongs to species `id`, refresh it
to `MAX_AGE`, push it, record it as the new root, and stop. -/
def pulseInner (cfg : Config) (o : TickOracle) (id outer : Nat) :
    Nat → PulseState → PulseState
  | 0, st => st
  | fuel + 1, st =>
    match st.tiles (pulsePoint cfg o id outer fuel).2 (pulsePoint cfg o id outer fuel).1 with
    | Tile.Bug root_id _ =>
        if id = root_id then
          { tiles := setTile st.tiles (pulsePoint cfg o id outer fuel).2
              (pulsePoint cfg o id outer fuel).1 (Tile.Bug root_id cfg.MAX_AGE)
            roots := st.roots.set id (pulsePoint cfg o id outer fuel)
            next := st.next ++ [pulsePoint cfg o id outer fuel] }
        else pulseInner cfg o id outer fuel st
    | _ => pulseInner cfg o id outer fuel st

/-- The outer `for _ in 0..100` loop of the pulse step (lines 151–176):
if the recorded root still belongs to species `id`, refresh it and stop;
otherwise run the inner search and retry. -/
def pulseOuter (cfg : Config) (o : TickOracle) (id : Nat) :
    Nat → PulseState → PulseState
  | 0, st => st
  | fuel + 1, st =>
    match st.tiles (rootOf st id).2 (rootOf st id).1 with
    | Tile.Bug root_id _ =>
        if id = root_id then
          { st with tiles := setTile st.tiles (rootOf st id).2 (rootOf st id).1
                      (Tile.Bug root_id cfg.MAX_AGE)
                    next := st.next ++ [rootOf st id] }
        else pulseOuter cfg o id fuel (pulseInner cfg o id fuel 100 st)
    | _ => pulseOuter cfg o id fuel (pulseInner cfg o id fuel 100 st)

/-- The pulse step over all species (lines 149–178): each species with a
nonzero active count this tick pulses with probability `PULSE_CHANCE`. -/
def pulsePhase (cfg : Config) (o : TickOracle) (counts : Nat → Nat) (st : PulseState) :
    PulseState :=
  (List.range cfg.SPECIES).foldl
    (fun s id => if 0 < counts id ∧ o.pulseRoll id = true then pulseOuter cfg o id 100 s else s)
    st

/-! ## Win detection and the full tick (lines 180–185) -/

/-- Lines 180–182: if exactly one species had a nonzero active count this
tick, record it as the winner (`position(...).unwrap()` is the first — and
only — species with a positive count; the `find?` below is `some` exactly
when the length condition holds, so the `unwrap` never panics). -/
def winnerCheck (cfg : Config) (counts : Nat → Nat) (old : Option Nat) : Option Nat :=
  if ((List.range cfg.SPECIES).filter (fun i => decide (0 < counts i))).length = 1 then
    (List.range cfg.SPECIES).find? (fun i => decide (0 < counts i))
  else old

/-- `World::update`: shuffle the frontier, run the spread loop, the age
pass, the pulse step and the win check, then install the next frontier and
bump the frame counter. -/
def update (cfg : Config) (o : TickOracle) (w : World) : World :=
  let shuffled := o.shuffle w.active
  let s1 := spreadPhase cfg o shuffled w.tiles
  let g2 := agePass cfg s1.tiles
  let ps := pulsePhase cfg o s1.counts ⟨g2, w.roots, s1.next⟩
  { tiles := ps.tiles
    active := ps.next
    winner := winnerCheck cfg s1.counts w.winner
    roots := ps.roots
    frameCount := w.frameCount + 1 }

/-! ## `World::new` (lines 24–67) -/

/-- The random inputs of `World::new`: `isWall x y` models the comparison
`perlin.get([x/100, y/100, 0]) > 0.25` (the `noise` crate is an external
collaborator; any wall field some seed produces is some oracle value), and
`rootSample id k` models the uniform placement samples, reduced into range
like the source's `(WIDTH as f32 * random::<f32>()) as usize`. -/
structure InitOracle where
  isWall : Nat → Nat → Bool
  rootSample : Nat → Nat → Nat × Nat

/-- The noise loop of `new` (lines 30–39): every in-rectangle cell whose
noise value exceeds the threshold becomes a wall; all others start empty. -/
def initTiles (cfg : Config) (o : InitOracle) : Grid :=
  fun y x => if y < cfg.HEIGHT ∧ x < cfg.WIDTH ∧ o.isWall x y = true then Tile.Wall
             else Tile.Empty

/-- The uniformly sampled coordinate of one placement attempt of `new`,
reduced into range like the source's
`(WIDTH as f32 * random::<f32>()) as usize`. -/
def placeSample (cfg : Config) (o : InitOracle) (id fuel : Nat) : Nat × Nat :=
  ((o.rootSample id fuel).1 % cfg.WIDTH, (o.rootSample id fuel).2 % cfg.HEIGHT)

/-- The per-species placement loop of `new` (lines 42–57).  The source
retries unboundedly until an empty cell is sampled; the model carries
explicit fuel and returns `none` if the search does not finish (modelling
the source looping forever). -/
def placeLoop (cfg : Config) (o : InitOracle) (id : Nat) :
    Nat → Grid × List (Nat × Nat) × List (Nat × Nat) →
    Option (Grid × List (Nat × Nat) × List (Nat × Nat))
  | 0, _ => none
  | fuel + 1, s =>
    if s.1 (placeSample cfg o id fuel).2 (placeSample cfg o id fuel).1 ≠ Tile.Empty then
      placeLoop cfg o id fuel s
    else
      some (setTile s.1 (placeSample cfg o id fuel).2 (placeSample cfg o id fuel).1
              (Tile.Bug id cfg.MAX_AGE),
            s.2.1 ++ [placeSample cfg o id fuel], s.2.2.set id (placeSample cfg o id fuel))

/-- `World::new`: build the noise walls, then place one root bug per
species (each placement loop gets `fuel` attempts; `none` models the
source's unbounded retry loop never finding an empty cell). -/
def init (cfg : Config) (o : InitOracle) (fuel : Nat) : Option World :=
  let start : Grid × List (Nat × Nat) × List (Nat × Nat) :=
    (initTiles cfg o, [], List.replicate cfg.SPECIES (0, 0))
  ((List.range cfg.SPECIES).foldl
      (fun acc id => acc.bind (placeLoop cfg o id fuel)) (some start)).map
    (fun s => { tiles := s.1, active := s.2.1, winner := none, roots := s.2.2, frameCount := 0 })

/-! ## `World::click` (lines 211–221) -/

/-- The species id of a bug tile, if any. -/
def speciesOf : Tile → Option Nat
  | Tile.Bug id _ => some id
  | _ => none

/-- `World::click`: the source indexes `self.tiles[y][x]` directly; Rust's
implicit array bounds checks panic on out-of-range indices, modelled here
by `Except.error`.  In bounds, a cell held by species 0 is refreshed to
`MAX_AGE`, becomes species 0's root, and is pushed onto the frontier; any
other cell leaves the world untouched. -/
def click (cfg : Config) (w : World) (x y : Nat) : Except String World :=
  if y < cfg.HEIGHT ∧ x < cfg.WIDTH then
    Except.ok
      (match w.tiles y x with
       | Tile.Bug clicked_id _ =>
          if clicked_id = 0 then
            { w with tiles := setTile w.tiles y x (Tile.Bug 0 cfg.MAX_AGE)
                     roots := w.roots.set 0 (x, y)
                     active := w.active ++ [(x, y)] }
          else w
       | _ => w)
  else Except.error "index out of bounds"

/-! ## `World::draw` (lines 190–209) -/

/-- The Rust cast `usize → i16` (truncate to 16 bits, reinterpret as
two's complement), used at lines 192–193. -/
def i16ofNat (n : Nat) : Int :=
  if n % 65536 < 32768 then ((n % 65536 : Nat) : Int)
  else ((n % 65536 : Nat) : Int) - 65536

/-- The Rust cast `i16 → usize` (sign-extend, reinterpret as a 64-bit
unsigned value), used by the indexing `self.tiles[y as usize][x as usize]`
at line 195. -/
def usizeOfI16 (i : Int) : Nat :=
  (i % (2 ^ 64 : Int)).toNat

/-- The color of one tile (lines 195–205): `Empty` is transparent black,
`Wall` opaque dark gray, and a bug is its species' base color with each of
r/g/b brightened by `4 * age`, saturating at 255.  The source adds in
`u16`, which cannot overflow (`255 + 4 * 255 < 2^16`), so plain `Nat`
arithmetic with `min` is exact.  (`COLORS[bug]` is in range whenever
`bug < SPECIES`, which holds in every reachable state.) -/
def tileRgba (cfg : Config) : Tile → Rgba
  | Tile.Empty => ⟨0, 0, 0, 0⟩
  | Tile.Wall => ⟨32, 32, 32, 255⟩
  | Tile.Bug bug age =>
      let c := cfg.COLORS.getD bug ⟨0, 0, 0, 0⟩
      ⟨min (c.r + age * 4) 255, min (c.g + age * 4) 255, min (c.b + age * 4) 255, c.a⟩

/-- The color written for the `i`-th 4-byte chunk of the frame (lines
191–207): `x = (i % WIDTH) as i16`, `y = (i / WIDTH) as i16`, then
`self.tiles[y as usize][x as usize]` — whose implicit bounds checks panic
(modelled by `Except.error`) when the chunk index lies outside the grid. -/
def drawPixel (cfg : Config) (g : Grid) (i : Nat) : Except String Rgba :=
  if usizeOfI16 (i16ofNat (i / cfg.WIDTH)) < cfg.HEIGHT ∧
      usizeOfI16 (i16ofNat (i % cfg.WIDTH)) < cfg.WIDTH then
    Except.ok (tileRgba cfg
      (g (usizeOfI16 (i16ofNat (i / cfg.WIDTH))) (usizeOfI16 (i16ofNat (i % cfg.WIDTH)))))
  else Except.error "index out of bounds"

/-- The chunk loop of `draw`: render `n` consecutive chunks starting at
chunk index `start`, stopping with the panic of the first out-of-range
access if one occurs. -/
def drawLoop (cfg : Config) (g : Grid) (start : Nat) : Nat → Except String (List Rgba)
  | 0 => Except.ok []
  | n + 1 =>
    match drawPixel cfg g start with
    | Except.error e => Except.error e
    | Except.ok p =>
      match drawLoop cfg g (start + 1) n with
      | Except.error e => Except.error e
      | Except.ok ps => Except.ok (p :: ps)

/-- `World::draw` on a frame buffer of `len` bytes:
`frame.chunks_exact_mut(4)` yields `len / 4` chunks (any remainder bytes
are silently ignored, and a buffer shorter than `WIDTH*HEIGHT*4` is
silently rendered only partially); the result is the list of pixel colors
written.  `draw` takes `&mut self` in the source but only reads the grid,
so it is modelled as a pure function of the grid. -/
def draw (cfg : Config) (g : Grid) (len : Nat) : Except String (List Rgba) :=
  drawLoop cfg g 0 (len / 4)

/-! ## Concrete configurations, worlds and oracles used in the scenario
theorems and counterexamples -/

/-- A tick oracle for runs with `SKIP_CHANCE = 0` and `DEACTIVE_CHANCE = 0`
(both comparisons `gen_range(0.0..1.0) < 0.0` are always false) in which
the shuffle leaves the frontier order unchanged and no pulse fires. -/
def oracleQuiet : TickOracle :=
  { shuffle := id
    skipRoll := fun _ => false
    deactRoll := fun _ => false
    pulseRoll := fun _ => false
    pulseSample := fun _ _ _ => (0, 0) }

/-- A 1×1 one-species configuration with `MAX_AGE = 10`. -/
def cfgA : Config := ⟨1, 1, 1, 10, [⟨10, 20, 30, 255⟩]⟩

/-- A 1×1 grid whose only cell holds a spent bug `Bug(0, 0)`. -/
def gridA : Grid := fun y x => if y = 0 ∧ x = 0 then Tile.Bug 0 0 else Tile.Empty

/-- The spread-loop state at the start of a tick on `gridA`. -/
def stA : SpreadState := ⟨gridA, [], fun _ => 0⟩

/-- The 1×1 world whose only cell holds `Bug(0, 0)` and is on the
frontier. -/
def wA : World := ⟨gridA, [(0, 0)], none, [(0, 0)], 0⟩

/-- The 3×1 one-species configuration of the spec's deterministic-spread
scenario, with `MAX_AGE = 10`. -/
def cfgB : Config := ⟨3, 1, 1, 10, [⟨10, 20, 30, 255⟩]⟩

/-- The 3×1 grid with species 0 at `(0, 0)` (age `MAX_AGE`) and the other
cells empty. -/
def gridB : Grid := fun y x => if y = 0 ∧ x = 0 then Tile.Bug 0 10 else Tile.Empty

/-- The 3×1 world of the deterministic-spread scenario. -/
def wB : World := ⟨gridB, [(0, 0)], none, [(0, 0)], 0⟩

/-- The spread-loop state at the start of a tick on `gridB`. -/
def stB : SpreadState := ⟨gridB, [], fun _ => 0⟩

/-- A 5×1 two-species configuration. -/
def cfgC : Config := ⟨5, 1, 2, 10, [⟨10, 20, 30, 255⟩, ⟨30, 20, 10, 255⟩]⟩

/-- An init oracle for `cfgC`: no walls, species 0 placed at `(0, 0)`,
species 1 at `(4, 0)`. -/
def initOracleC : InitOracle :=
  { isWall := fun _ _ => false
    rootSample := fun id _ => if id = 0 then (0, 0) else (4, 0) }

/-- Tick oracle for the first tick of the winner-flapping run: the second
frontier entry (species 1's cell) is skipped, everything else proceeds. -/
def oracleC1 : TickOracle :=
  { shuffle := id
    skipRoll := fun k => k == 1
    deactRoll := fun _ => false
    pulseRoll := fun _ => false
    pulseSample := fun _ _ _ => (0, 0) }

/-- Tick oracle for the second tick of the winner-flapping run: the first
frontier entry (species 0's cell) is deactivated, everything else
proceeds. -/
def oracleC2 : TickOracle :=
  { shuffle := id
    skipRoll := fun _ => false
    deactRoll := fun k => k == 0
    pulseRoll := fun _ => false
    pulseSample := fun _ _ _ => (0, 0) }

/-- A 2×1 one-species configuration (frame buffer size `2 * 1 * 4 = 8`
bytes). -/
def cfgD : Config := ⟨2, 1, 1, 10, [⟨10, 20, 30, 255⟩]⟩

/-- A 2×1 grid: a wall at `(0, 0)`, empty at `(1, 0)`. -/
def gridD : Grid := fun y x => if y = 0 ∧ x = 0 then Tile.Wall else Tile.Empty

/-! ## Pointwise evolution of tiles across the phases of a tick

Every write the tick performs stores a `Bug` value, and none of the
spread/pulse writes targets a `Wall` cell.  `PhaseEvol` captures this
per-cell: a phase leaves a cell unchanged, or the cell was not a wall and
now holds some bug of age `M` (`M` will be `MAX_AGE`). -/

/-- Per-cell effect of the spread and pulse phases: unchanged, or a
non-wall cell freshly overwritten with some `Bug(j, M)`. -/
def PhaseEvol (M : Nat) (t t' : Tile) : Prop :=
  t' = t ∨ (t ≠ Tile.Wall ∧ ∃ j, t' = Tile.Bug j M)

theorem phaseEvol_refl (M : Nat) (t : Tile) : PhaseEvol M t t := Or.inl rfl

theorem phaseEvol_trans {M : Nat} {t₁ t₂ t₃ : Tile} (h₁ : PhaseEvol M t₁ t₂)
    (h₂ : PhaseEvol M t₂ t₃) : PhaseEvol M t₁ t₃ := by
  rcases h₂ with rfl | ⟨hw₂, j₂, rfl⟩
  · exact h₁
  · rcases h₁ with rfl | ⟨hw₁, j₁, h₁⟩
    · exact Or.inr ⟨hw₂, j₂, rfl⟩
    · refine Or.inr ⟨hw₁, j₂, rfl⟩

theorem setTile_eval (g : Grid) (y x : Nat) (t : Tile) (b a : Nat) :
    setTile g y x t b a = if b = y ∧ a = x then t else g b a := rfl

/-- Any fold whose steps evolve every cell by `R` evolves every cell by
`R`. -/
theorem foldl_evol {σ α : Type} (R : Tile → Tile → Prop)
    (hre : ∀ t, R t t) (htr : ∀ t₁ t₂ t₃, R t₁ t₂ → R t₂ t₃ → R t₁ t₃)
    (tilesOf : σ → Grid) (step : σ → α → σ)
    (hstep : ∀ s d y x, R (tilesOf s y x) (tilesOf (step s d) y x)) :
    ∀ (l : List α) (s : σ) (y x : Nat), R (tilesOf s y x) (tilesOf (l.foldl step s) y x) := by
  intro l
  induction l with
  | nil => intro s y x; exact hre _
  | cons d ds ih =>
      intro s y x
      exact htr _ _ _ (hstep s d y x) (ih (step s d) y x)

/-- Reading a cell after a `setTile` write of tile `t` at `(y, x)` yields
either the old value (other cells) or `t` (the written cell), and the
written cell previously held the value the write's guard inspected. -/
theorem setTile_cases (g : Grid) (y x : Nat) (t : Tile) (b a : Nat) :
    setTile g y x t b a = g b a ∨ (b = y ∧ a = x ∧ setTile g y x t b a = t) := by
  rw [setTile_eval]
  by_cases hba : b = y ∧ a = x
  · exact Or.inr ⟨hba.1, hba.2, if_pos hba⟩
  · exact Or.inl (if_neg hba)

theorem trySpread_evol (cfg : Config) (id x y : Nat) (d : Int × Int) (st : SpreadState)
    (b a : Nat) :
    PhaseEvol cfg.MAX_AGE (st.tiles b a) ((trySpread cfg id x y d st).tiles b a) := by
  cases hibt : inBoundsTarget cfg x y d with
  | none => simp only [trySpread, hibt]; exact phaseEvol_refl _ _
  | some t =>
    obtain ⟨nx, ny⟩ := t
    cases htile : st.tiles ny nx with
    | Empty =>
        simp only [trySpread, hibt, htile]
        rcases setTile_cases st.tiles ny nx (Tile.Bug id cfg.MAX_AGE) b a with h | ⟨hb, ha, h⟩
        · exact Or.inl h
        · refine Or.inr ⟨?_, id, h⟩
          rw [hb, ha, htile]
          exact fun hc => Tile.noConfusion hc
    | Wall => simp only [trySpread, hibt, htile]; exact phaseEvol_refl _ _
    | Bug k oa =>
        simp only [trySpread, hibt, htile]
        by_cases hoa : oa = 0
        · rw [if_pos hoa]
          rcases setTile_cases st.tiles ny nx (Tile.Bug id cfg.MAX_AGE) b a with h | ⟨hb, ha, h⟩
          · exact Or.inl h
          · refine Or.inr ⟨?_, id, h⟩
            rw [hb, ha, htile]
            exact fun hc => Tile.noConfusion hc
        · rw [if_neg hoa]
          exact phaseEvol_refl _ _

theorem processCell_evol (cfg : Config) (skip deact : Bool) (p : Nat × Nat) (st : SpreadState)
    (y x : Nat) :
    PhaseEvol cfg.MAX_AGE (st.tiles y x) ((processCell cfg skip deact p st).tiles y x) := by
  unfold processCell
  by_cases hs : skip = true
  · rw [if_pos hs]; exact phaseEvol_refl _ _
  · rw [if_neg hs]
    by_cases hd : deact = true
    · rw [if_pos hd]; exact phaseEvol_refl _ _
    · rw [if_neg hd]
      cases htile : st.tiles p.2 p.1 with
      | Empty => exact phaseEvol_refl _ _
      | Wall => exact phaseEvol_refl _ _
      | Bug id age =>
          exact foldl_evol (PhaseEvol cfg.MAX_AGE) (phaseEvol_refl _)
            (fun _ _ _ => phaseEvol_trans) SpreadState.tiles _
            (fun s d b a => trySpread_evol cfg id p.1 p.2 d s b a)
            neighborOffsets _ y x

theorem spreadPhase_evol (cfg : Config) (o : TickOracle) (frontier : List (Nat × Nat))
    (g : Grid) (y x : Nat) :
    PhaseEvol cfg.MAX_AGE (g y x) ((spreadPhase cfg o frontier g).tiles y x) :=
  foldl_evol (PhaseEvol cfg.MAX_AGE) (phaseEvol_refl _) (fun _ _ _ => phaseEvol_trans)
    SpreadState.tiles _
    (fun s kp y x => processCell_evol cfg (o.skipRoll kp.1) (o.deactRoll kp.1) kp.2 s y x)
    frontier.enum ⟨g, [], fun _ => 0⟩ y x

theorem pulseInner_evol (cfg : Config) (o : TickOracle) (id outer : Nat) :
    ∀ (fuel : Nat) (st : PulseState) (y x : Nat),
      PhaseEvol cfg.MAX_AGE (st.tiles y x) ((pulseInner cfg o id outer fuel st).tiles y x) := by
  intro fuel
  induction fuel with
  | zero => intro st y x; exact phaseEvol_refl _ _
  | succ n ih =>
      intro st y x
      cases htile : st.tiles (pulsePoint cfg o id outer n).2 (pulsePoint cfg o id outer n).1 with
      | Empty => simp only [pulseInner, htile]; exact ih st y x
      | Wall => simp only [pulseInner, htile]; exact ih st y x
      | Bug root_id age =>
          simp only [pulseInner, htile]
          by_cases hid : id = root_id
          · rw [if_pos hid]
            rcases setTile_cases st.tiles (pulsePoint cfg o id outer n).2
                (pulsePoint cfg o id outer n).1 (Tile.Bug root_id cfg.MAX_AGE) y x with
              h | ⟨hb, ha, h⟩
            · exact Or.inl h
            · refine Or.inr ⟨?_, root_id, h⟩
              rw [hb, ha, htile]; exact fun hc => Tile.noConfusion hc
          · rw [if_neg hid]
            exact ih st y x

theorem pulseOuter_evol (cfg : Config) (o : TickOracle) (id : Nat) :
    ∀ (fuel : Nat) (st : PulseState) (y x : Nat),
      PhaseEvol cfg.MAX_AGE (st.tiles y x) ((pulseOuter cfg o id fuel st).tiles y x) := by
  intro fuel
  induction fuel with
  | zero => intro st y x; exact phaseEvol_refl _ _
  | succ n ih =>
      intro st y x
      cases htile : st.tiles (rootOf st id).2 (rootOf st id).1 with
      | Empty =>
          simp only [pulseOuter, htile]
          exact phaseEvol_trans (pulseInner_evol cfg o id n 100 st y x) (ih _ y x)
      | Wall =>
          simp only [pulseOuter, htile]
          exact phaseEvol_trans (pulseInner_evol cfg o id n 100 st y x) (ih _ y x)
      | Bug root_id age =>
          simp only [pulseOuter, htile]
          by_cases hid : id = root_id
          · rw [if_pos hid]
            rcases setTile_cases st.tiles (rootOf st id).2 (rootOf st id).1
                (Tile.Bug root_id cfg.MAX_AGE) y x with h | ⟨hb, ha, h⟩
            · exact Or.inl h
            · refine Or.inr ⟨?_, root_id, h⟩
              rw [hb, ha, htile]; exact fun hc => Tile.noConfusion hc
          · rw [if_neg hid]
            exact phaseEvol_trans (pulseInner_evol cfg o id n 100 st y x) (ih _ y x)

theorem pulsePhase_evol (cfg : Config) (o : TickOracle) (counts : Nat → Nat)
    (st : PulseState) (y x : Nat) :
    PhaseEvol cfg.MAX_AGE (st.tiles y x) ((pulsePhase cfg o counts st).tiles y x) := by
  refine foldl_evol (PhaseEvol cfg.MAX_AGE) (phaseEvol_refl _) (fun _ _ _ => phaseEvol_trans)
    PulseState.tiles _ ?_ (List.range cfg.SPECIES) st y x
  intro s id b a
  by_cases hc : 0 < counts id ∧ o.pulseRoll id = true
  · rw [if_pos hc]; exact pulseOuter_evol cfg o id 100 s b a
  · rw [if_neg hc]; exact phaseEvol_refl _ _

theorem agePass_eval (cfg : Config) (g : Grid) (y x : Nat) :
    agePass cfg g y x = if y < cfg.HEIGHT ∧ x < cfg.WIDTH then ageTile (g y x) else g y x := rfl

/-- The tiles of the updated world are the pulse phase applied to the age
pass applied to the spread phase. -/
theorem update_tiles_eq (cfg : Config) (o : TickOracle) (w : World) :
    (update cfg o w).tiles =
      (pulsePhase cfg o (spreadPhase cfg o (o.shuffle w.active) w.tiles).counts
        ⟨agePass cfg (spreadPhase cfg o (o.shuffle w.active) w.tiles).tiles, w.roots,
          (spreadPhase cfg o (o.shuffle w.active) w.tiles).next⟩).tiles := rfl

/-! ## Consequences of the evolution lemmas -/

theorem phaseEvol_wall_iff {M : Nat} {t t' : Tile} (h : PhaseEvol M t t') :
    t' = Tile.Wall ↔ t = Tile.Wall := by
  rcases h with rfl | ⟨hw, j, rfl⟩
  · exact Iff.rfl
  · exact ⟨fun hc => Tile.noConfusion hc, fun hc => absurd hc hw⟩

theorem ageTile_wall_iff (t : Tile) : ageTile t = Tile.Wall ↔ t = Tile.Wall := by
  cases t with
  | Empty => exact Iff.rfl
  | Wall => exact Iff.rfl
  | Bug id age =>
      simp only [ageTile]
      by_cases h : age = 0
      · rw [if_pos h]
        exact ⟨fun hc => Tile.noConfusion hc, fun hc => Tile.noConfusion hc⟩
      · rw [if_neg h]
        exact ⟨fun hc => Tile.noConfusion hc, fun hc => Tile.noConfusion hc⟩

theorem phaseEvol_empty {M : Nat} {t t' : Tile} (h : PhaseEvol M t t') :
    t' = Tile.Empty → t = Tile.Empty := by
  rcases h with rfl | ⟨_, j, rfl⟩
  · exact fun h => h
  · exact fun hc => Tile.noConfusion hc

theorem phaseEvol_bug {M : Nat} {t t' : Tile} (h : PhaseEvol M t t') {id a : Nat}
    (ht : t = Tile.Bug id a) : ∃ j c, t' = Tile.Bug j c := by
  rcases h with rfl | ⟨_, j, rfl⟩
  · exact ⟨id, a, ht⟩
  · exact ⟨j, M, rfl⟩

theorem ageTile_empty (t : Tile) : ageTile t = Tile.Empty → t = Tile.Empty := by
  cases t with
  | Empty => exact fun h => h
  | Wall => exact fun h => h
  | Bug id age =>
      simp only [ageTile]
      by_cases h : age = 0
      · rw [if_pos h]; exact fun hc => Tile.noConfusion hc
      · rw [if_neg h]; exact fun hc => Tile.noConfusion hc

theorem ageTile_bug {t : Tile} {id a : Nat} (ht : t = Tile.Bug id a) :
    ∃ j c, ageTile t = Tile.Bug j c := by
  subst ht
  simp only [ageTile]
  by_cases h : a = 0
  · rw [if_pos h]; exact ⟨id, 0, rfl⟩
  · rw [if_neg h]; exact ⟨id, a - 1, rfl⟩

/-- `click` either leaves the world untouched or refreshes a species-0
cell: the two arms of the match at lines 213–220. -/
theorem click_ok_cases {cfg : Config} {w : World} {x y : Nat} {w' : World}
    (h : click cfg w x y = Except.ok w') :
    w' = w ∨ ∃ a', w.tiles y x = Tile.Bug 0 a' ∧
      w' = { w with tiles := setTile w.tiles y x (Tile.Bug 0 cfg.MAX_AGE)
                    roots := w.roots.set 0 (x, y)
                    active := w.active ++ [(x, y)] } := by
  unfold click at h
  by_cases hb : y < cfg.HEIGHT ∧ x < cfg.WIDTH
  · rw [if_pos hb] at h
    have h2 := Except.ok.inj h
    cases htile : w.tiles y x with
    | Empty => rw [htile] at h2; exact Or.inl h2.symm
    | Wall => rw [htile] at h2; exact Or.inl h2.symm
    | Bug id a =>
        rw [htile] at h2
        simp only at h2
        by_cases hid : id = 0
        · subst hid
          rw [if_pos rfl] at h2
          exact Or.inr ⟨a, rfl, h2.symm⟩
        · rw [if_neg hid] at h2
          exact Or.inl h2.symm
  · rw [if_neg hb] at h
    exact absurd h (fun hc => Except.noConfusion hc)

/-- C6: the set of `Wall` cells is invariant under `tick()` and under any
successful `click()`: no cell changes to or from `Wall`. -/
theorem wall_permanence (cfg : Config) (o : TickOracle) (w : World) (y x : Nat) :
    ((update cfg o w).tiles y x = Tile.Wall ↔ w.tiles y x = Tile.Wall) ∧
    (∀ cx cy w', click cfg w cx cy = Except.ok w' →
      (w'.tiles y x = Tile.Wall ↔ w.tiles y x = Tile.Wall)) := by
  constructor
  · have h1 : PhaseEvol cfg.MAX_AGE (w.tiles y x)
        ((spreadPhase cfg o (o.shuffle w.active) w.tiles).tiles y x) :=
      spreadPhase_evol cfg o (o.shuffle w.active) w.tiles y x
    have h3 : PhaseEvol cfg.MAX_AGE
        (agePass cfg (spreadPhase cfg o (o.shuffle w.active) w.tiles).tiles y x)
        ((update cfg o w).tiles y x) :=
      pulsePhase_evol cfg o (spreadPhase cfg o (o.shuffle w.active) w.tiles).counts
        ⟨agePass cfg (spreadPhase cfg o (o.shuffle w.active) w.tiles).tiles, w.roots,
          (spreadPhase cfg o (o.shuffle w.active) w.tiles).next⟩ y x
    rw [phaseEvol_wall_iff h3, agePass_eval]
    by_cases hin : y < cfg.HEIGHT ∧ x < cfg.WIDTH
    · rw [if_pos hin, ageTile_wall_iff, phaseEvol_wall_iff h1]
    · rw [if_neg hin, phaseEvol_wall_iff h1]
  · intro cx cy w' hc
    rcases click_ok_cases hc with rfl | ⟨a', ht, rfl⟩
    · exact Iff.rfl
    · show setTile w.tiles cy cx (Tile.Bug 0 cfg.MAX_AGE) y x = Tile.Wall ↔ _
      rcases setTile_cases w.tiles cy cx (Tile.Bug 0 cfg.MAX_AGE) y x with h | ⟨hb, ha, h⟩
      · rw [h]
      · rw [h, hb, ha, ht]
        exact ⟨fun hc2 => Tile.noConfusion hc2, fun hc2 => Tile.noConfusion hc2⟩

/-- Closed instance of `wall_permanence` discharging its click hypothesis
at a concrete world. -/
theorem wall_permanence_witness :
    ((update cfgB oracleQuiet wB).tiles 0 2 = Tile.Wall ↔ wB.tiles 0 2 = Tile.Wall) ∧
    (wB.tiles 0 2 = Tile.Wall ↔ wB.tiles 0 2 = Tile.Wall) := by
  have h := wall_permanence cfgB oracleQuiet wB 0 2
  exact ⟨h.1, h.2 1 0 wB rfl⟩

/-- C10: no operation vacates a cell: a tick or a successful click never
turns an occupied cell back to `Empty`, and a `Bug` cell still holds a
`Bug` afterwards. -/
theorem occupied_never_vacated (cfg : Config) (o : TickOracle) (w : World) (y x : Nat) :
    ((update cfg o w).tiles y x = Tile.Empty → w.tiles y x = Tile.Empty) ∧
    (∀ id a, w.tiles y x = Tile.Bug id a → ∃ j c, (update cfg o w).tiles y x = Tile.Bug j c) ∧
    (∀ cx cy w', click cfg w cx cy = Except.ok w' →
      ((w'.tiles y x = Tile.Empty → w.tiles y x = Tile.Empty) ∧
       (∀ id a, w.tiles y x = Tile.Bug id a → ∃ j c, w'.tiles y x = Tile.Bug j c))) := by
  have h1 : PhaseEvol cfg.MAX_AGE (w.tiles y x)
      ((spreadPhase cfg o (o.shuffle w.active) w.tiles).tiles y x) :=
    spreadPhase_evol cfg o (o.shuffle w.active) w.tiles y x
  have h3 : PhaseEvol cfg.MAX_AGE
      (agePass cfg (spreadPhase cfg o (o.shuffle w.active) w.tiles).tiles y x)
      ((update cfg o w).tiles y x) :=
    pulsePhase_evol cfg o (spreadPhase cfg o (o.shuffle w.active) w.tiles).counts
      ⟨agePass cfg (spreadPhase cfg o (o.shuffle w.active) w.tiles).tiles, w.roots,
        (spreadPhase cfg o (o.shuffle w.active) w.tiles).next⟩ y x
  refine ⟨?_, ?_, ?_⟩
  · intro he
    have h2 := phaseEvol_empty h3 he
    rw [agePass_eval] at h2
    by_cases hin : y < cfg.HEIGHT ∧ x < cfg.WIDTH
    · rw [if_pos hin] at h2
      exact phaseEvol_empty h1 (ageTile_empty _ h2)
    · rw [if_neg hin] at h2
      exact phaseEvol_empty h1 h2
  · intro id a ht
    obtain ⟨j1, c1, hs⟩ := phaseEvol_bug h1 ht
    by_cases hin : y < cfg.HEIGHT ∧ x < cfg.WIDTH
    · obtain ⟨j2, c2, hage⟩ := ageTile_bug hs
      have : agePass cfg (spreadPhase cfg o (o.shuffle w.active) w.tiles).tiles y x =
          Tile.Bug j2 c2 := by rw [agePass_eval, if_pos hin]; exact hage
      exact phaseEvol_bug h3 this
    · have : agePass cfg (spreadPhase cfg o (o.shuffle w.active) w.tiles).tiles y x =
          Tile.Bug j1 c1 := by rw [agePass_eval, if_neg hin]; exact hs
      exact phaseEvol_bug h3 this
  · intro cx cy w' hc
    rcases click_ok_cases hc with rfl | ⟨a', ht, rfl⟩
    · exact ⟨fun h => h, fun id a h => ⟨id, a, h⟩⟩
    · constructor
      · show setTile w.tiles cy cx (Tile.Bug 0 cfg.MAX_AGE) y x = Tile.Empty → _
        rcases setTile_cases w.tiles cy cx (Tile.Bug 0 cfg.MAX_AGE) y x with h | ⟨hb, ha, h⟩
        · rw [h]; exact fun h2 => h2
        · rw [h]; exact fun hc2 => absurd hc2 (fun hc3 => Tile.noConfusion hc3)
      · intro id a hbug
        show ∃ j c, setTile w.tiles cy cx (Tile.Bug 0 cfg.MAX_AGE) y x = Tile.Bug j c
        rcases setTile_cases w.tiles cy cx (Tile.Bug 0 cfg.MAX_AGE) y x with h | ⟨hb, ha, h⟩
        · exact ⟨id, a, by rw [h]; exact hbug⟩
        · exact ⟨0, cfg.MAX_AGE, h⟩

/-- Closed instance of `occupied_never_vacated` discharging its
hypotheses at a concrete world. -/
theorem occupied_never_vacated_witness :
    (wB.tiles 0 0 = Tile.Bug 0 10 → ∃ j c, (update cfgB oracleQuiet wB).tiles 0 0 = Tile.Bug j c) ∧
    ((update cfgB oracleQuiet wB).tiles 0 2 = Tile.Empty → wB.tiles 0 2 = Tile.Empty) ∧
    (wB.tiles 0 0 = Tile.Bug 0 10 → ∃ j c, wB.tiles 0 0 = Tile.Bug j c) := by
  have h0 := occupied_never_vacated cfgB oracleQuiet wB 0 0
  have h2 := occupied_never_vacated cfgB oracleQuiet wB 0 2
  exact ⟨h0.2.1 0 10, h2.1, fun ht => (h0.2.2 1 0 wB rfl).2 0 10 ht⟩

/-! ## The age clamp -/

/-- The ages of all bug tiles of a grid are bounded by `MAX_AGE`. -/
def AgesOK (cfg : Config) (g : Grid) : Prop :=
  ∀ y x id a, g y x = Tile.Bug id a → a ≤ cfg.MAX_AGE

theorem phaseEvol_ages {M : Nat} {t t' : Tile} (h : PhaseEvol M t t')
    (ht : ∀ id a, t = Tile.Bug id a → a ≤ M) :
    ∀ id a, t' = Tile.Bug id a → a ≤ M := by
  rcases h with rfl | ⟨_, j, rfl⟩
  · exact ht
  · intro id a heq
    cases heq
    exact Nat.le_refl _

theorem ageTile_ages {M : Nat} {t : Tile} (ht : ∀ id a, t = Tile.Bug id a → a ≤ M) :
    ∀ id a, ageTile t = Tile.Bug id a → a ≤ M := by
  cases t with
  | Empty => exact ht
  | Wall => exact ht
  | Bug j b =>
      simp only [ageTile]
      by_cases hb : b = 0
      · rw [if_pos hb]
        intro id a heq
        cases heq
        exact Nat.zero_le _
      · rw [if_neg hb]
        intro id a heq
        cases heq
        exact Nat.le_trans (Nat.sub_le _ _) (ht j b rfl)

/-- The full tick preserves the age clamp. -/
theorem update_ages (cfg : Config) (o : TickOracle) (w : World)
    (h : AgesOK cfg w.tiles) : AgesOK cfg (update cfg o w).tiles := by
  intro y x id a
  have h1 : PhaseEvol cfg.MAX_AGE (w.tiles y x)
      ((spreadPhase cfg o (o.shuffle w.active) w.tiles).tiles y x) :=
    spreadPhase_evol cfg o (o.shuffle w.active) w.tiles y x
  have h3 : PhaseEvol cfg.MAX_AGE
      (agePass cfg (spreadPhase cfg o (o.shuffle w.active) w.tiles).tiles y x)
      ((update cfg o w).tiles y x) :=
    pulsePhase_evol cfg o (spreadPhase cfg o (o.shuffle w.active) w.tiles).counts
      ⟨agePass cfg (spreadPhase cfg o (o.shuffle w.active) w.tiles).tiles, w.roots,
        (spreadPhase cfg o (o.shuffle w.active) w.tiles).next⟩ y x
  refine phaseEvol_ages h3 ?_ id a
  rw [agePass_eval]
  by_cases hin : y < cfg.HEIGHT ∧ x < cfg.WIDTH
  · rw [if_pos hin]
    exact ageTile_ages (phaseEvol_ages h1 (h y x))
  · rw [if_neg hin]
    exact phaseEvol_ages h1 (h y x)

theorem AgesOK_setTile {cfg : Config} {g : Grid} {y x id a : Nat} (h : AgesOK cfg g)
    (ha : a ≤ cfg.MAX_AGE) : AgesOK cfg (setTile g y x (Tile.Bug id a)) := by
  intro b c j e heq
  rcases setTile_cases g y x (Tile.Bug id a) b c with h2 | ⟨_, _, h2⟩
  · exact h b c j e (h2 ▸ heq)
  · rw [h2] at heq
    cases heq
    exact ha

theorem initTiles_ages (cfg : Config) (o : InitOracle) : AgesOK cfg (initTiles cfg o) := by
  intro y x id a h
  unfold initTiles at h
  by_cases hc : y < cfg.HEIGHT ∧ x < cfg.WIDTH ∧ o.isWall x y = true
  · rw [if_pos hc] at h
    exact absurd h (fun hc2 => Tile.noConfusion hc2)
  · rw [if_neg hc] at h
    exact absurd h (fun hc2 => Tile.noConfusion hc2)

theorem placeLoop_ages (cfg : Config) (o : InitOracle) (id : Nat) :
    ∀ (fuel : Nat) (s : Grid × List (Nat × Nat) × List (Nat × Nat)) out,
      placeLoop cfg o id fuel s = some out → AgesOK cfg s.1 → AgesOK cfg out.1 := by
  intro fuel
  induction fuel with
  | zero =>
      intro s out h
      exact absurd h (fun hc => Option.noConfusion hc)
  | succ n ih =>
      intro s out h hages
      rw [placeLoop] at h
      by_cases hc : s.1 (placeSample cfg o id n).2 (placeSample cfg o id n).1 ≠ Tile.Empty
      · rw [if_pos hc] at h
        exact ih s out h hages
      · rw [if_neg hc] at h
        cases Option.some.inj h
        exact AgesOK_setTile hages (Nat.le_refl _)

theorem foldl_place_ages (cfg : Config) (o : InitOracle) (fuel : Nat) :
    ∀ (l : List Nat) (acc : Option (Grid × List (Nat × Nat) × List (Nat × Nat))) out,
      l.foldl (fun acc id => acc.bind (placeLoop cfg o id fuel)) acc = some out →
      (∀ s, acc = some s → AgesOK cfg s.1) → AgesOK cfg out.1 := by
  intro l
  induction l with
  | nil =>
      intro acc out h hacc
      exact hacc out h
  | cons a l ih =>
      intro acc out h hacc
      rw [List.foldl_cons] at h
      refine ih _ out h ?_
      intro s hs
      obtain ⟨s0, hs0, hstep⟩ := Option.bind_eq_some.mp hs
      exact placeLoop_ages cfg o a fuel s0 s hstep (hacc s0 hs0)

/-- `World::new` establishes the age clamp: every bug it places has age
`MAX_AGE`. -/
theorem init_ages (cfg : Config) (o : InitOracle) (fuel : Nat) (w0 : World)
    (h : init cfg o fuel = some w0) : AgesOK cfg w0.tiles := by
  unfold init at h
  obtain ⟨s, hs, hw⟩ := Option.map_eq_some'.mp h
  have hall := foldl_place_ages cfg o fuel (List.range cfg.SPECIES) _ s hs ?_
  · rw [← hw]
    exact hall
  · intro s0 hs0
    cases Option.some.inj hs0
    exact initTiles_ages cfg o

theorem phaseEvol_fate {M : Nat} {t t' : Tile} (h : PhaseEvol M t t') {id : Nat}
    (ht : t = Tile.Bug id 0) : t' = Tile.Bug id 0 ∨ ∃ j, t' = Tile.Bug j M := by
  rcases h with rfl | ⟨_, j, rfl⟩
  · exact Or.inl ht
  · exact Or.inr ⟨j, rfl⟩

/-- The fate of an age-0 bug across one tick: untouched (still
`Bug(id, 0)`), or overwritten with `Bug(j, MAX_AGE)` by the spread step and
then decremented to `MAX_AGE - 1` by the age pass, or holding
`Bug(j, MAX_AGE)` because the pulse step refreshed it after the age pass. -/
theorem update_age_zero (cfg : Config) (o : TickOracle) (w : World) (y x id : Nat)
    (ht : w.tiles y x = Tile.Bug id 0) :
    (update cfg o w).tiles y x = Tile.Bug id 0 ∨
    (∃ j, (update cfg o w).tiles y x = Tile.Bug j (cfg.MAX_AGE - 1)) ∨
    (∃ j, (update cfg o w).tiles y x = Tile.Bug j cfg.MAX_AGE) := by
  have h1 : PhaseEvol cfg.MAX_AGE (w.tiles y x)
      ((spreadPhase cfg o (o.shuffle w.active) w.tiles).tiles y x) :=
    spreadPhase_evol cfg o (o.shuffle w.active) w.tiles y x
  have h3 : PhaseEvol cfg.MAX_AGE
      (agePass cfg (spreadPhase cfg o (o.shuffle w.active) w.tiles).tiles y x)
      ((update cfg o w).tiles y x) :=
    pulsePhase_evol cfg o (spreadPhase cfg o (o.shuffle w.active) w.tiles).counts
      ⟨agePass cfg (spreadPhase cfg o (o.shuffle w.active) w.tiles).tiles, w.roots,
        (spreadPhase cfg o (o.shuffle w.active) w.tiles).next⟩ y x
  have h2 : agePass cfg (spreadPhase cfg o (o.shuffle w.active) w.tiles).tiles y x
        = Tile.Bug id 0 ∨
      (∃ j, agePass cfg (spreadPhase cfg o (o.shuffle w.active) w.tiles).tiles y x
        = Tile.Bug j (cfg.MAX_AGE - 1)) ∨
      (∃ j, agePass cfg (spreadPhase cfg o (o.shuffle w.active) w.tiles).tiles y x
        = Tile.Bug j cfg.MAX_AGE) := by
    rw [agePass_eval]
    rcases phaseEvol_fate h1 ht with hs | ⟨j, hs⟩
    · by_cases hin : y < cfg.HEIGHT ∧ x < cfg.WIDTH
      · rw [if_pos hin, hs]
        left
        simp only [ageTile]
        exact if_pos trivial
      · rw [if_neg hin, hs]
        exact Or.inl rfl
    · by_cases hin : y < cfg.HEIGHT ∧ x < cfg.WIDTH
      · rw [if_pos hin, hs]
        right; left
        refine ⟨j, ?_⟩
        simp only [ageTile]
        by_cases hM : cfg.MAX_AGE = 0
        · rw [if_pos hM, hM]
        · rw [if_neg hM]
      · rw [if_neg hin, hs]
        right; right
        exact ⟨j, rfl⟩
  rcases h2 with h2 | ⟨j, h2⟩ | ⟨j, h2⟩
  · rcases phaseEvol_fate h3 h2 with hf | ⟨j', hf⟩
    · exact Or.inl hf
    · exact Or.inr (Or.inr ⟨j', hf⟩)
  · rcases h3 with hf | ⟨_, j', hf⟩
    · exact Or.inr (Or.inl ⟨j, by rw [hf, h2]⟩)
    · exact Or.inr (Or.inr ⟨j', hf⟩)
  · rcases h3 with hf | ⟨_, j', hf⟩
    · exact Or.inr (Or.inr ⟨j, by rw [hf, h2]⟩)
    · exact Or.inr (Or.inr ⟨j', hf⟩)

/-! ## Winner bookkeeping -/

/-- Lines 180–182 never clear the winner slot: the only assignment stores
`Some(...)`, and when the length-1 condition fails the old value is
kept. -/
theorem winnerCheck_isSome (cfg : Config) (counts : Nat → Nat) (old : Option Nat)
    (h : old.isSome = true) : (winnerCheck cfg counts old).isSome = true := by
  unfold winnerCheck
  by_cases hlen :
      ((List.range cfg.SPECIES).filter (fun i => decide (0 < counts i))).length = 1
  · rw [if_pos hlen, List.find?_isSome]
    obtain ⟨i, hi⟩ := List.length_eq_one.mp hlen
    have hmem : i ∈ (List.range cfg.SPECIES).filter (fun i => decide (0 < counts i)) := by
      rw [hi]
      exact List.mem_singleton_self i
    have h2 := List.mem_filter.mp hmem
    exact ⟨i, h2.1, h2.2⟩
  · rw [if_neg hlen]
    exact h

/-! ## Claim C3 -/

/-- C3 (amended): `tick()` never resets a recorded winner back to `None`
— `winner()` keeps returning `Some`.  (The id it returns is *not* stable:
see the counterexample `winner_changes_cex`, where a later tick overwrites
the winner with a different species.) -/
theorem winner_never_cleared (cfg : Config) (o : TickOracle) (w : World)
    (h : w.winner.isSome = true) : ((update cfg o w).winner).isSome = true :=
  winnerCheck_isSome cfg (spreadPhase cfg o (o.shuffle w.active) w.tiles).counts w.winner h

/-- Closed instance of `winner_never_cleared` at a concrete world. -/
theorem winner_never_cleared_witness :
    ((update cfgB oracleQuiet { wB with winner := some 0 }).winner).isSome = true :=
  winner_never_cleared cfgB oracleQuiet { wB with winner := some 0 } rfl

/-- C3 fails as stated: from a freshly initialized 5×1 world with species
0 at `(0, 0)` and species 1 at `(4, 0)`, a tick in which species 1's only
frontier entry is skipped makes `winner()` return `Some 0`, and the very
next tick — in which species 0's frontier entries are deactivated while
species 1's cell acts — overwrites it to `Some 1`: the winner slot *is*
changed to a different species id by a later `tick()`. -/
theorem winner_changes_cex :
    ((init cfgC initOracleC 4).map
      (fun w0 => ((update cfgC oracleC1 w0).winner,
                  (update cfgC oracleC2 (update cfgC oracleC1 w0)).winner)))
      = some (some 0, some 1) := by decide

/-! ## Claim C2 -/

/-- C2 fails as stated: in the spec's own 3×1 scenario (species 0 at
`(0, 0)`, `SKIP_CHANCE = 0`, `DEACTIVE_CHANCE = 0`, `MAX_AGE = 10`), after
one tick the freshly spread cell `(1, 0)` holds `Bug(0, 9)`, not
`Bug(0, MAX_AGE)`: the age pass runs over the whole grid after the spread
step and decrements the tile written this very tick. -/
theorem fresh_spread_decremented_cex :
    (update cfgB oracleQuiet wB).tiles 0 1 ≠ Tile.Bug 0 cfgB.MAX_AGE ∧
    (update cfgB oracleQuiet wB).tiles 0 1 = Tile.Bug 0 9 := by decide

/-- C2 (amended): in the 3×1 scenario, the spread step writes
`Bug(0, MAX_AGE)` into `(1, 0)` but the same tick's age pass decrements
it, so after one `tick()` the cell holds `Bug(0, MAX_AGE - 1)`; the cell
is a member of the next frontier as claimed. -/
theorem fresh_spread_aged_same_tick :
    (update cfgB oracleQuiet wB).tiles 0 1 = Tile.Bug 0 (cfgB.MAX_AGE - 1) ∧
    (1, 0) ∈ (update cfgB oracleQuiet wB).active ∧
    wB.tiles 0 1 = Tile.Empty := by decide

/-! ## Claim C7 -/

/-- C7 (amended): (i) initialization establishes the age clamp
`age ≤ MAX_AGE`, and `tick()` and `click()` preserve it, so no reachable
state has a bug older than `MAX_AGE`; (ii) a cell holding `Bug(id, 0)`
before a tick afterwards holds `Bug(id, 0)` (untouched), or
`Bug(j, MAX_AGE - 1)` (overwritten with `MAX_AGE` by the spread step and
then decremented by the same tick's age pass), or `Bug(j, MAX_AGE)`
(refreshed by the pulse step after the age pass).  The claim's
"still `Bug(id, 0)` or fresh `Bug(new_owner, MAX_AGE)` after the age
pass" omits the `MAX_AGE - 1` outcome — see `age_zero_rewritten_cex`. -/
theorem age_clamp_and_age_zero_fate (cfg : Config) :
    (∀ io fuel w0, init cfg io fuel = some w0 → AgesOK cfg w0.tiles) ∧
    (∀ o w, AgesOK cfg w.tiles → AgesOK cfg (update cfg o w).tiles) ∧
    (∀ w x y w', click cfg w x y = Except.ok w' → AgesOK cfg w.tiles → AgesOK cfg w'.tiles) ∧
    (∀ o w y x id, w.tiles y x = Tile.Bug id 0 →
      (update cfg o w).tiles y x = Tile.Bug id 0 ∨
      (∃ j, (update cfg o w).tiles y x = Tile.Bug j (cfg.MAX_AGE - 1)) ∨
      (∃ j, (update cfg o w).tiles y x = Tile.Bug j cfg.MAX_AGE)) := by
  refine ⟨init_ages cfg, update_ages cfg, ?_, update_age_zero cfg⟩
  intro w x y w' hc hages
  rcases click_ok_cases hc with rfl | ⟨a', ht, rfl⟩
  · exact hages
  · exact AgesOK_setTile hages (Nat.le_refl _)

/-- Closed instance of `age_clamp_and_age_zero_fate` at concrete
worlds. -/
theorem age_clamp_and_age_zero_fate_witness :
    AgesOK cfgB (update cfgB oracleQuiet wB).tiles ∧
    ((update cfgA oracleQuiet wA).tiles 0 0 = Tile.Bug 0 0 ∨
     (∃ j, (update cfgA oracleQuiet wA).tiles 0 0 = Tile.Bug j (cfgA.MAX_AGE - 1)) ∨
     (∃ j, (update cfgA oracleQuiet wA).tiles 0 0 = Tile.Bug j cfgA.MAX_AGE)) := by
  constructor
  · refine (age_clamp_and_age_zero_fate cfgB).2.1 oracleQuiet wB ?_
    intro y x id a h
    by_cases hc : y = 0 ∧ x = 0
    · have h2 : wB.tiles y x = Tile.Bug 0 10 := by
        show gridB y x = _
        unfold gridB
        rw [if_pos hc]
      have h3 := h2.symm.trans h
      cases h3
      exact Nat.le_refl _
    · have h2 : wB.tiles y x = Tile.Empty := by
        show gridB y x = _
        unfold gridB
        rw [if_neg hc]
      rw [h2] at h
      exact absurd h (fun hc2 => Tile.noConfusion hc2)
  · exact (age_clamp_and_age_zero_fate cfgA).2.2.2 oracleQuiet wA 0 0 0 rfl

/-- C7's age-0 clause fails as stated: on a 1×1 grid whose only cell is a
frontier bug `Bug(0, 0)` with `MAX_AGE = 10`, one tick leaves the cell
holding `Bug(0, 9)` — the spread loop's self-target (offset `(0, 0)`)
rewrites the spent cell to `Bug(0, 10)` and the same tick's age pass
decrements it, so the age after the age pass is neither `0` nor
`MAX_AGE`. -/
theorem age_zero_rewritten_cex :
    (update cfgA oracleQuiet wA).tiles 0 0 = Tile.Bug 0 9 ∧
    wA.tiles 0 0 = Tile.Bug 0 0 ∧ cfgA.MAX_AGE = 10 := by decide

/-! ## Claim C4 -/

/-- C4 fails on the source: `click` indexes `self.tiles[y][x]` with no
explicit bounds check, so an out-of-bounds coordinate hits Rust's implicit
array bounds check and panics (modelled as `Except.error`) instead of
being silently ignored.  (The spec itself calls the silent-rejection
behavior "a required hardening over the source's unchecked indexing".) -/
theorem click_oob_panics (cfg : Config) (w : World) (x y : Nat)
    (h : cfg.HEIGHT ≤ y ∨ cfg.WIDTH ≤ x) :
    click cfg w x y = Except.error "index out of bounds" := by
  unfold click
  rw [if_neg]
  intro hc
  rcases h with h | h
  · exact absurd hc.1 (Nat.not_lt.mpr h)
  · exact absurd hc.2 (Nat.not_lt.mpr h)

/-- Closed instance of `click_oob_panics`: clicking `(3, 0)` on the 3×1
world fails instead of being a no-op. -/
theorem click_oob_panics_witness :
    click cfgB wB 3 0 = Except.error "index out of bounds" :=
  click_oob_panics cfgB wB 3 0 (Or.inr (Nat.le_refl _))

/-! ## Claim C5 -/

/-- C5 fails on the source: `draw` never checks the buffer size —
`chunks_exact_mut(4)` simply yields `len / 4` chunks.  On the 2×1 world
(exact size `2 * 1 * 4 = 8` bytes) a 4-byte buffer is silently rendered
partially (only the wall pixel) and the call returns normally, rather
than reporting a fatal precondition failure. -/
theorem draw_truncates_undersized :
    draw cfgD gridD 4 = Except.ok [⟨32, 32, 32, 255⟩] ∧
    cfgD.WIDTH * cfgD.HEIGHT * 4 = 8 := ⟨rfl, rfl⟩

/-! ## Claim C8 -/

/-- C8: an in-bounds click on a cell not owned by species 0 returns the
world unchanged (grid, frontier and roots identical); only a cell already
holding a species-0 bug is refreshed to `MAX_AGE`, made species 0's root,
and pushed onto the frontier. -/
theorem click_ownership (cfg : Config) (w : World) (x y : Nat)
    (h : y < cfg.HEIGHT ∧ x < cfg.WIDTH) :
    (speciesOf (w.tiles y x) ≠ some 0 → click cfg w x y = Except.ok w) ∧
    (∀ a', w.tiles y x = Tile.Bug 0 a' →
      click cfg w x y = Except.ok
        { w with tiles := setTile w.tiles y x (Tile.Bug 0 cfg.MAX_AGE)
                 roots := w.roots.set 0 (x, y)
                 active := w.active ++ [(x, y)] }) := by
  constructor
  · intro hns
    unfold click
    rw [if_pos h]
    cases htile : w.tiles y x with
    | Empty => rfl
    | Wall => rfl
    | Bug id a =>
        have hid : id ≠ 0 := fun he => hns (by rw [htile, he]; rfl)
        simp only
        rw [if_neg hid]
  · intro a' htile
    unfold click
    rw [if_pos h, htile]
    simp only
    rw [if_pos trivial]

/-- Closed instance of `click_ownership`: clicking the empty cell
`(1, 0)` of the 3×1 world is a no-op, clicking species 0's cell `(0, 0)`
refreshes it. -/
theorem click_ownership_witness :
    click cfgB wB 1 0 = Except.ok wB ∧
    click cfgB wB 0 0 = Except.ok
      { wB with tiles := setTile wB.tiles 0 0 (Tile.Bug 0 cfgB.MAX_AGE)
                roots := wB.roots.set 0 (0, 0)
                active := wB.active ++ [(0, 0)] } := by
  constructor
  · exact (click_ownership cfgB wB 1 0 (by exact ⟨Nat.lt_irrefl 0 |> fun _ => Nat.zero_lt_one, by decide⟩)).1 (by decide)
  · exact (click_ownership cfgB wB 0 0 (by decide)).2 10 rfl

/-! ## Claim C1: exact characterization of the spread targets -/

theorem inBoundsTarget_coords {cfg : Config} {x y : Nat} {d : Int × Int} {t : Nat × Nat}
    (h : inBoundsTarget cfg x y d = some t) :
    (t.1 : Int) = (x : Int) + d.1 ∧ (t.2 : Int) = (y : Int) + d.2 := by
  unfold inBoundsTarget at h
  by_cases hc : (x : Int) + d.1 < 0 ∨ (y : Int) + d.2 < 0 ∨
      (x : Int) + d.1 ≥ (cfg.WIDTH : Int) ∨ (y : Int) + d.2 ≥ (cfg.HEIGHT : Int)
  · rw [if_pos hc] at h
    exact absurd h (fun hc2 => Option.noConfusion hc2)
  · rw [if_neg hc] at h
    push_neg at hc
    cases Option.some.inj h
    exact ⟨Int.toNat_of_nonneg (Int.not_lt.mp (fun hlt => absurd hlt (Int.not_lt.mpr hc.1))),
           Int.toNat_of_nonneg (Int.not_lt.mp (fun hlt => absurd hlt (Int.not_lt.mpr hc.2.1)))⟩

theorem inBoundsTarget_inj {cfg : Config} {x y : Nat} {d d' : Int × Int} {t : Nat × Nat}
    (h : inBoundsTarget cfg x y d = some t) (h' : inBoundsTarget cfg x y d' = some t) :
    d = d' := by
  obtain ⟨h1, h2⟩ := inBoundsTarget_coords h
  obtain ⟨h1', h2'⟩ := inBoundsTarget_coords h'
  have e1 : d.1 = d'.1 := by omega
  have e2 : d.2 = d'.2 := by omega
  obtain ⟨d1, d2⟩ := d
  obtain ⟨d1', d2'⟩ := d'
  simp only at e1 e2
  rw [e1, e2]

/-- Distinct offsets reach distinct in-bounds targets, so the target list
of one frontier cell has no duplicates. -/
theorem spreadTargets_nodup (cfg : Config) (x y : Nat) : (spreadTargets cfg x y).Nodup := by
  refine List.Nodup.filterMap ?_ ?_
  · intro d d' t hd hd'
    exact inBoundsTarget_inj (Option.mem_def.mp hd) (Option.mem_def.mp hd')
  · decide

theorem trySpread_none {cfg : Config} {id x y : Nat} {d : Int × Int} {st : SpreadState}
    (h : inBoundsTarget cfg x y d = none) : trySpread cfg id x y d st = st := by
  simp only [trySpread, h]

theorem trySpread_tiles_other {cfg : Config} {id x y : Nat} {d : Int × Int}
    {st : SpreadState} {a b : Nat} (h : inBoundsTarget cfg x y d ≠ some (a, b)) :
    (trySpread cfg id x y d st).tiles b a = st.tiles b a := by
  cases hibt : inBoundsTarget cfg x y d with
  | none => rw [trySpread_none hibt]
  | some t =>
      obtain ⟨nx, ny⟩ := t
      have hne : ¬(b = ny ∧ a = nx) := by
        rintro ⟨hb, ha⟩
        exact h (by rw [hibt, ha, hb])
      cases htile : st.tiles ny nx with
      | Empty =>
          simp only [trySpread, hibt, htile]
          rw [setTile_eval, if_neg hne]
      | Wall => simp only [trySpread, hibt, htile]
      | Bug k oa =>
          simp only [trySpread, hibt, htile]
          by_cases hoa : oa = 0
          · rw [if_pos hoa]
            show setTile st.tiles ny nx (Tile.Bug id cfg.MAX_AGE) b a = st.tiles b a
            rw [setTile_eval, if_neg hne]
          · rw [if_neg hoa]

theorem trySpread_target {cfg : Config} {id x y : Nat} {d : Int × Int} (st : SpreadState)
    {a b : Nat} (h : inBoundsTarget cfg x y d = some (a, b)) :
    ((trySpread cfg id x y d st).tiles b a =
      if spreadable (st.tiles b a) = true then Tile.Bug id cfg.MAX_AGE else st.tiles b a) ∧
    (spreadable (st.tiles b a) = true → (a, b) ∈ (trySpread cfg id x y d st).next) := by
  cases htile : st.tiles b a with
  | Empty =>
      refine ⟨?_, fun _ => ?_⟩
      · simp only [trySpread, h, htile]
        rw [setTile_eval, if_pos ⟨rfl, rfl⟩]
        rfl
      · simp only [trySpread, h, htile]
        exact List.mem_append_right _ (List.mem_singleton_self _)
  | Wall =>
      refine ⟨?_, fun hsp => absurd hsp (fun hc => Bool.noConfusion hc)⟩
      simp only [trySpread, h, htile]
      rw [if_neg (fun hc : spreadable Tile.Wall = true => Bool.noConfusion hc)]
  | Bug k oa =>
      by_cases hoa : oa = 0
      · subst hoa
        refine ⟨?_, fun _ => ?_⟩
        · simp only [trySpread, h, htile]
          rw [if_pos trivial]
          show setTile st.tiles b a (Tile.Bug id cfg.MAX_AGE) b a = _
          rw [setTile_eval, if_pos ⟨rfl, rfl⟩]
          rfl
        · simp only [trySpread, h, htile]
          rw [if_pos trivial]
          exact List.mem_append_right _ (List.mem_singleton_self _)
      · refine ⟨?_, fun hsp => absurd (show oa = 0 by simpa [spreadable] using hsp) hoa⟩
        simp only [trySpread, h, htile]
        rw [if_neg hoa,
          if_neg (fun hc : spreadable (Tile.Bug k oa) = true =>
            hoa (show oa = 0 by simpa [spreadable] using hc))]
        exact htile

theorem trySpread_next_mono {cfg : Config} {id x y : Nat} {d : Int × Int} {st : SpreadState}
    {p : Nat × Nat} (hp : p ∈ st.next) : p ∈ (trySpread cfg id x y d st).next := by
  cases hibt : inBoundsTarget cfg x y d with
  | none => rw [trySpread_none hibt]; exact hp
  | some t =>
      obtain ⟨nx, ny⟩ := t
      cases htile : st.tiles ny nx with
      | Empty =>
          simp only [trySpread, hibt, htile]
          exact List.mem_append_left _ hp
      | Wall => simp only [trySpread, hibt, htile]; exact hp
      | Bug k oa =>
          simp only [trySpread, hibt, htile]
          by_cases hoa : oa = 0
          · rw [if_pos hoa]
            exact List.mem_append_left _ hp
          · rw [if_neg hoa]
            exact hp

theorem foldlSpread_next_mono (cfg : Config) (id x y : Nat) :
    ∀ (ds : List (Int × Int)) (st : SpreadState) (p : Nat × Nat), p ∈ st.next →
      p ∈ (ds.foldl (fun s d => trySpread cfg id x y d s) st).next := by
  intro ds
  induction ds with
  | nil => intro st p hp; exact hp
  | cons d ds ih =>
      intro st p hp
      rw [List.foldl_cons]
      exact ih _ p (trySpread_next_mono hp)

theorem foldlSpread_tiles_notmem (cfg : Config) (id x y : Nat) :
    ∀ (ds : List (Int × Int)) (st : SpreadState) (a b : Nat),
      (a, b) ∉ ds.filterMap (inBoundsTarget cfg x y) →
      (ds.foldl (fun s d => trySpread cfg id x y d s) st).tiles b a = st.tiles b a := by
  intro ds
  induction ds with
  | nil => intro st a b _; rfl
  | cons d ds ih =>
      intro st a b hmem
      have hd : inBoundsTarget cfg x y d ≠ some (a, b) := fun hc =>
        hmem (List.mem_filterMap.mpr ⟨d, List.mem_cons_self d ds, hc⟩)
      have hds : (a, b) ∉ ds.filterMap (inBoundsTarget cfg x y) := fun hc => by
        obtain ⟨d', hd', he⟩ := List.mem_filterMap.mp hc
        exact hmem (List.mem_filterMap.mpr ⟨d', List.mem_cons_of_mem _ hd', he⟩)
      rw [List.foldl_cons, ih _ a b hds, trySpread_tiles_other hd]

theorem foldlSpread_tiles_mem (cfg : Config) (id x y : Nat) :
    ∀ (ds : List (Int × Int)) (st : SpreadState) (a b : Nat),
      (ds.filterMap (inBoundsTarget cfg x y)).Nodup →
      (a, b) ∈ ds.filterMap (inBoundsTarget cfg x y) →
      ((ds.foldl (fun s d => trySpread cfg id x y d s) st).tiles b a =
        if spreadable (st.tiles b a) = true then Tile.Bug id cfg.MAX_AGE else st.tiles b a) ∧
      (spreadable (st.tiles b a) = true →
        (a, b) ∈ (ds.foldl (fun s d => trySpread cfg id x y d s) st).next) := by
  intro ds
  induction ds with
  | nil => intro st a b _ hmem; exact absurd hmem (List.not_mem_nil _)
  | cons d ds ih =>
      intro st a b hnd hmem
      rw [List.foldl_cons]
      by_cases hd : inBoundsTarget cfg x y d = some (a, b)
      · have hlist : (d :: ds).filterMap (inBoundsTarget cfg x y) =
            (a, b) :: ds.filterMap (inBoundsTarget cfg x y) := by
          simp only [List.filterMap_cons, hd]
        rw [hlist] at hnd
        have hrest : (a, b) ∉ ds.filterMap (inBoundsTarget cfg x y) :=
          (List.nodup_cons.mp hnd).1
        obtain ⟨ht_eq, ht_mem⟩ := trySpread_target st hd
        constructor
        · rw [foldlSpread_tiles_notmem cfg id x y ds _ a b hrest, ht_eq]
        · intro hsp
          exact foldlSpread_next_mono cfg id x y ds _ _ (ht_mem hsp)
      · have hmem' : (a, b) ∈ ds.filterMap (inBoundsTarget cfg x y) := by
          rcases List.mem_filterMap.mp hmem with ⟨d', hd', he⟩
          rcases List.mem_cons.mp hd' with rfl | hd'2
          · exact absurd he hd
          · exact List.mem_filterMap.mpr ⟨d', hd'2, he⟩
        have hnd' : (ds.filterMap (inBoundsTarget cfg x y)).Nodup := by
          cases hibt : inBoundsTarget cfg x y d with
          | none => simp only [List.filterMap_cons, hibt] at hnd; exact hnd
          | some t =>
              simp only [List.filterMap_cons, hibt] at hnd
              exact (List.nodup_cons.mp hnd).2
        have hst' : (trySpread cfg id x y d st).tiles b a = st.tiles b a :=
          trySpread_tiles_other hd
        obtain ⟨ih1, ih2⟩ := ih (trySpread cfg id x y d st) a b hnd' hmem'
        constructor
        · rw [ih1, hst']
        · intro hsp
          exact ih2 (by rw [hst']; exact hsp)

/-- C1 (amended): when a frontier cell `(x, y)` holding a bug of species
`id` is processed (not skipped, not deactivated), the spread attempts
target exactly the in-bounds coordinates reached by the five offsets
`(-1,0), (0,-1), (0,0), (0,1), (1,0)` — the four orthogonal neighbors
*and the cell itself*, since the loop filter `dx != 0 && dy != 0` removes
only the diagonals.  Each such target that is `Empty` or holds a bug with
`age == 0` is overwritten with `Bug(id, MAX_AGE)` and pushed onto the
next frontier; a `Wall` target, a bug target with `age > 0`, and every
non-target cell are left unchanged. -/
theorem spread_step_effect (cfg : Config) (x y id age : Nat) (st : SpreadState)
    (hb : st.tiles y x = Tile.Bug id age) (a b : Nat) :
    ((a, b) ∈ spreadTargets cfg x y →
      ((processCell cfg false false (x, y) st).tiles b a =
        if spreadable (st.tiles b a) = true then Tile.Bug id cfg.MAX_AGE else st.tiles b a) ∧
      (spreadable (st.tiles b a) = true →
        (a, b) ∈ (processCell cfg false false (x, y) st).next)) ∧
    ((a, b) ∉ spreadTargets cfg x y →
      (processCell cfg false false (x, y) st).tiles b a = st.tiles b a) := by
  have hpc : processCell cfg false false (x, y) st =
      neighborOffsets.foldl (fun s d => trySpread cfg id x y d s)
        { st with counts := fun j => if j = id then st.counts j + 1 else st.counts j } := by
    simp only [processCell, Bool.false_eq_true, if_false, hb]
  rw [hpc]
  constructor
  · intro hmem
    exact foldlSpread_tiles_mem cfg id x y neighborOffsets _ a b
      (spreadTargets_nodup cfg x y) hmem
  · intro hmem
    exact foldlSpread_tiles_notmem cfg id x y neighborOffsets _ a b hmem

/-- Closed instance of `spread_step_effect`: processing `(0, 0)` of the
3×1 world overwrites the empty neighbor `(1, 0)` and pushes it. -/
theorem spread_step_effect_witness :
    ((processCell cfgB false false (0, 0) stB).tiles 0 1 =
      if spreadable (stB.tiles 0 1) = true then Tile.Bug 0 cfgB.MAX_AGE else stB.tiles 0 1) ∧
    (1, 0) ∈ (processCell cfgB false false (0, 0) stB).next := by
  have h := (spread_step_effect cfgB 0 0 0 10 stB rfl 1 0).1 (by decide)
  exact ⟨h.1, h.2 (by decide)⟩

/-- C1 fails as stated: the cell itself *is* a spread target.  On a 1×1
grid whose only cell is a frontier bug `Bug(0, 0)`, processing it leaves
no orthogonal in-bounds neighbor at all, yet the spread step overwrites
the cell with `Bug(0, MAX_AGE)` (via the offset `(0, 0)`, which the
filter `dx != 0 && dy != 0` does not remove) and pushes `(0, 0)` onto the
next frontier. -/
theorem spread_self_target_cex :
    (0, 0) ∈ spreadTargets cfgA 0 0 ∧
    stA.tiles 0 0 = Tile.Bug 0 0 ∧
    (processCell cfgA false false (0, 0) stA).tiles 0 0 = Tile.Bug 0 10 ∧
    (0, 0) ∈ (processCell cfgA false false (0, 0) stA).next := by decide

/-! ## Claim C9: the render mapping -/

/-- For indices below `i16::MAX` the two Rust casts round-trip. -/
theorem i16_roundtrip (n : Nat) (h : n < 32768) : usizeOfI16 (i16ofNat n) = n := by
  unfold i16ofNat usizeOfI16
  have h1 : n % 65536 = n := Nat.mod_eq_of_lt (by omega)
  rw [h1, if_pos h]
  omega

theorem drawPixel_ok (cfg : Config) (g : Grid) (h0 : 0 < cfg.WIDTH)
    (h1 : cfg.WIDTH ≤ 32768) (h2 : cfg.HEIGHT ≤ 32768) (i : Nat)
    (hi : i < cfg.WIDTH * cfg.HEIGHT) :
    drawPixel cfg g i = Except.ok (tileRgba cfg (g (i / cfg.WIDTH) (i % cfg.WIDTH))) := by
  have hx : i % cfg.WIDTH < cfg.WIDTH := Nat.mod_lt _ h0
  have hy : i / cfg.WIDTH < cfg.HEIGHT := Nat.div_lt_of_lt_mul hi
  unfold drawPixel
  rw [i16_roundtrip _ (Nat.lt_of_lt_of_le hx h1), i16_roundtrip _ (Nat.lt_of_lt_of_le hy h2),
    if_pos ⟨hy, hx⟩]

theorem drawLoop_map (cfg : Config) (g : Grid) (f : Nat → Rgba) :
    ∀ (n start : Nat),
      (∀ k, k < n → drawPixel cfg g (start + k) = Except.ok (f (start + k))) →
      drawLoop cfg g start n = Except.ok ((List.range n).map (fun k => f (start + k))) := by
  intro n
  induction n with
  | zero => intro start _; rfl
  | succ m ih =>
      intro start hall
      have h0 : drawPixel cfg g start = Except.ok (f start) := by
        have h := hall 0 (Nat.succ_pos m)
        rwa [Nat.add_zero] at h
      have hrest : ∀ k, k < m →
          drawPixel cfg g (start + 1 + k) = Except.ok (f (start + 1 + k)) := by
        intro k hk
        have h := hall (k + 1) (Nat.succ_lt_succ hk)
        have he : start + (k + 1) = start + 1 + k := by omega
        rwa [he] at h
      simp only [drawLoop, h0, ih (start + 1) hrest]
      refine congrArg Except.ok ?_
      rw [List.range_succ_eq_map, List.map_cons, List.map_map, Nat.add_zero]
      congr 1
      refine List.map_congr_left ?_
      intro a _
      show f (start + 1 + a) = f (start + a.succ)
      exact congrArg f (by omega)

/-- C9: on an exactly-sized buffer (`WIDTH * HEIGHT * 4` bytes), `draw`
succeeds and writes, for each grid cell in row-major order, exactly
`tileRgba`: `Empty ↦ (0,0,0,0)`, `Wall ↦ (32,32,32,255)`, and
`Bug(species, age) ↦` the species' base color with each of r/g/b raised
by `4 * age` saturating at 255 and alpha unchanged; in particular
`Bug(0, 10)` with base color `(10,20,30,255)` renders as `(50,60,70,255)`.
The dimension bounds come from the source's `i16` casts of the pixel
coordinates; `draw` reads the grid and touches nothing else (it is a pure
function in this model). -/
theorem render_row_major (cfg : Config) (g : Grid) (h0 : 0 < cfg.WIDTH)
    (h1 : cfg.WIDTH ≤ 32768) (h2 : cfg.HEIGHT ≤ 32768) :
    draw cfg g (cfg.WIDTH * cfg.HEIGHT * 4) =
      Except.ok ((List.range (cfg.WIDTH * cfg.HEIGHT)).map
        (fun i => tileRgba cfg (g (i / cfg.WIDTH) (i % cfg.WIDTH)))) ∧
    tileRgba cfg Tile.Empty = ⟨0, 0, 0, 0⟩ ∧
    tileRgba cfg Tile.Wall = ⟨32, 32, 32, 255⟩ ∧
    tileRgba cfgB (Tile.Bug 0 10) = ⟨50, 60, 70, 255⟩ := by
  refine ⟨?_, rfl, rfl, rfl⟩
  unfold draw
  rw [Nat.mul_div_cancel _ (by omega)]
  have hmap := drawLoop_map cfg g
    (fun i => tileRgba cfg (g (i / cfg.WIDTH) (i % cfg.WIDTH)))
    (cfg.WIDTH * cfg.HEIGHT) 0 ?_
  · simpa using hmap
  · intro k hk
    exact drawPixel_ok cfg g h0 h1 h2 (0 + k) (by simpa using hk)

/-- Closed instance of `render_row_major` at the 3×1 world. -/
theorem render_row_major_witness :
    draw cfgB gridB (cfgB.WIDTH * cfgB.HEIGHT * 4) =
      Except.ok ((List.range (cfgB.WIDTH * cfgB.HEIGHT)).map
        (fun i => tileRgba cfgB (gridB (i / cfgB.WIDTH) (i % cfgB.WIDTH)))) ∧
    tileRgba cfgB Tile.Empty = ⟨0, 0, 0, 0⟩ ∧
    tileRgba cfgB Tile.Wall = ⟨32, 32, 32, 255⟩ ∧
    tileRgba cfgB (Tile.Bug 0 10) = ⟨50, 60, 70, 255⟩ :=
  render_row_major cfgB gridB (by decide) (by decide) (by decide)

end BugShine
